import Mathlib

/-!
Verification of the AI-search-chat frontend streaming client.

This file embeds, as executable Lean definitions, the parts of the
TypeScript frontend that the verified claims are about:

* `useStreamingChat.ts` : the SSE stream reader of `sendMessage`
  (chunk splitting, `data: ` line filtering, JSON parsing, and the
  per-event-type state updates on the message list);
* `MessageBubble` (`renderContent`) and `CitationBadge` : citation-marker
  rendering;
* `ComponentRenderer` : dispatch of `component` events to the registry;
* `ChatInterface.handleCitationClick` : PDF-viewer state on citation click;
* `DocumentUpload.handleFileUpload` : upload validation.

JavaScript strings are modelled as Lean `String`/`List Char`, JS numbers
appearing in the protocol (citation ids, page numbers) as `Int`, and
`JSON.parse` as an executable recursive-descent parser of the JSON
subset the wire protocol uses (integers, strings with the common
escapes, booleans, null, arrays, objects).
-/

namespace AIChat

/-- The `Source` record of `frontend/types/index.ts`: `page` is
`number | string` in TypeScript, modelled as a sum. -/
inductive PageField where
  | num (n : Int)
  | str (s : String)
  deriving DecidableEq, Repr

/-- Model of `Source` from `frontend/types/index.ts`. -/
structure Source where
  id : Int
  pdf_id : String
  filename : String
  page : PageField
  text : String
  deriving DecidableEq, Repr

/-- Model of `ToolCall` from `frontend/types/index.ts`; `status` is one of
`"in_progress"` / `"complete"` on the wire but the client stores the
raw string. -/
structure ToolCall where
  name : String
  status : String
  deriving DecidableEq, Repr

/-- JSON values as produced by `JSON.parse` on the wire protocol's
payloads (numbers restricted to integers, which is all the protocol
uses). -/
inductive JValue where
  | null
  | bool (b : Bool)
  | num (n : Int)
  | str (s : String)
  | arr (elems : List JValue)
  | obj (fields : List (String × JValue))

/-- Model of `GenerativeComponent` from `frontend/types/index.ts`. -/
structure GenComponent where
  name : String
  props : JValue

/-- The fields of `Message` (`frontend/types/index.ts`) that the stream
reader touches.  Optional fields are `Option` exactly where the
TypeScript interface marks them `?`. -/
structure Msg where
  id : String
  role : String
  content : String
  sources : Option (List Source)
  toolCalls : Option (List ToolCall)
  components : Option (List GenComponent)
  isStreaming : Option Bool

/-- The pieces of React state that `sendMessage` mutates:
`messages`, `isStreaming`, `error`. -/
structure ChatState where
  messages : List Msg
  isStreaming : Bool
  error : Option String

/-- A decoded SSE event, one constructor per `data.type` the handler in
`useStreamingChat.ts` distinguishes; `other` stands for any event whose
`type` matches none of the six branches (the handler ignores it). -/
inductive SEvent where
  | text (content : String)
  | tool_call (name status : String)
  | component (name : String) (props : JValue)
  | sources (content : List Source)
  | done
  | error (content : String)
  | other

/-- Model of `useStreamingChat.ts` lines 110–136: look up the tool call by `name`
(`findIndex`), update its status in place if present, append otherwise. -/
def updateToolCalls (tcs : List ToolCall) (n st : String) : List ToolCall :=
  match tcs.findIdx? (fun tc => tc.name = n) with
  | some i => tcs.set i { name := n, status := st }
  | none => tcs ++ [{ name := n, status := st }]

/-- One `data` event applied to the React state, mirroring the
`if/else if` chain of `useStreamingChat.ts` lines 101–177.  Every
message-list update is a `map` that only rewrites the message whose id
is the assistant placeholder's id `aid`, exactly as the source's
`prev.map(msg => msg.id === assistantMessageId ? ... : msg)`. -/
def applyEvent (aid : String) (s : ChatState) : SEvent → ChatState
  | .text c =>
      { s with messages := s.messages.map (fun m =>
          if m.id = aid then { m with content := m.content ++ c } else m) }
  | .tool_call n st =>
      { s with messages := s.messages.map (fun m =>
          if m.id = aid then
            { m with toolCalls := some (updateToolCalls (m.toolCalls.getD []) n st) }
          else m) }
  | .component n props =>
      { s with messages := s.messages.map (fun m =>
          if m.id = aid then
            { m with components := some ((m.components.getD []) ++ [{ name := n, props := props }]) }
          else m) }
  | .sources content =>
      { s with messages := s.messages.map (fun m =>
          if m.id = aid then { m with sources := some content } else m) }
  | .done =>
      { messages := s.messages.map (fun m =>
          if m.id = aid then { m with isStreaming := some false } else m),
        isStreaming := false,
        error := s.error }
  | .error c => { s with error := some c, isStreaming := false }
  | .other => s

/-- Model of `done` and `error` both `return` out of `sendMessage`. -/
def isTerminalEvent : SEvent → Bool
  | .done => true
  | .error _ => true
  | _ => false

/-- The event loop: apply events in order; the `return` in the `done` and
`error` branches stops processing after the first terminal event. -/
def processEvents (aid : String) (s : ChatState) : List SEvent → ChatState
  | [] => s
  | e :: rest =>
      if isTerminalEvent e then applyEvent aid s e
      else processEvents aid (applyEvent aid s e) rest

/-- Model of `msg_${Date.now()}` — the user message id. -/
def userMessageId (now : Nat) : String := "msg_" ++ toString now

/-- Model of `msg_${Date.now() + 1}` — the assistant placeholder id. -/
def assistantMessageId (now : Nat) : String := "msg_" ++ toString (now + 1)

/-- The state right after `sendMessage` pushed the user message and the
assistant placeholder (`useStreamingChat.ts` lines 24–47):
user message with the input as content, empty assistant message with
`sources: []`, `isStreaming: true`, error cleared. -/
def initialState (now : Nat) (input : String) : ChatState :=
  { messages := [
      { id := userMessageId now, role := "user", content := input,
        sources := none, toolCalls := none, components := none, isStreaming := none },
      { id := assistantMessageId now, role := "assistant", content := "",
        sources := some [], toolCalls := none, components := none, isStreaming := some true } ],
    isStreaming := true,
    error := none }

/-- The `content` field of the first message with the given id, if any. -/
def contentOpt (s : ChatState) (aid : String) : Option String :=
  (s.messages.find? (fun m => m.id = aid)).map Msg.content

/-- The `sources` field of the first message with the given id. -/
def sourcesOpt (s : ChatState) (aid : String) : Option (Option (List Source)) :=
  (s.messages.find? (fun m => m.id = aid)).map Msg.sources

/-- The `toolCalls` field of the first message with the given id. -/
def toolCallsOpt (s : ChatState) (aid : String) : Option (Option (List ToolCall)) :=
  (s.messages.find? (fun m => m.id = aid)).map Msg.toolCalls

/-- The `components` field of the first message with the given id. -/
def componentsOpt (s : ChatState) (aid : String) : Option (Option (List GenComponent)) :=
  (s.messages.find? (fun m => m.id = aid)).map Msg.components

/-- Concatenation, in order, of the `content` of the `text` events of a
stream. -/
def textConcat : List SEvent → String
  | [] => ""
  | SEvent.text c :: rest => c ++ textConcat rest
  | _ :: rest => textConcat rest

/-- The prefix of a stream that the event loop actually processes: up to
and including the first terminal event. -/
def takeUntilTerminal : List SEvent → List SEvent
  | [] => []
  | e :: rest => if isTerminalEvent e then [e] else e :: takeUntilTerminal rest

/-- Recursive characterisation of the `findIndex`-and-set update of the
tool-call list: replace the first entry with the matching name, append
if there is none. -/
def updateToolCallsRec (n st : String) : List ToolCall → List ToolCall
  | [] => [{ name := n, status := st }]
  | tc :: rest =>
      if tc.name = n then { name := n, status := st } :: rest
      else tc :: updateToolCallsRec n st rest

/-- The names of the tool calls recorded on a message. -/
def msgToolNames (m : Msg) : List String := (m.toolCalls.getD []).map ToolCall.name

/-- Invariant: every message in the state has pairwise-distinct
tool-call stage names. -/
def ToolNamesNodup (s : ChatState) : Prop :=
  ∀ m ∈ s.messages, (msgToolNames m).Nodup

/-- The tool-call list of the first message with the given id (empty
when the message is absent or its optional list unset). -/
def assistantToolCalls (s : ChatState) (aid : String) : List ToolCall :=
  match s.messages.find? (fun m => m.id = aid) with
  | some m => m.toolCalls.getD []
  | none => []

/-- The three components registered in `componentRegistry`. -/
inductive RegisteredComponent where
  | chart
  | table
  | card
  deriving DecidableEq, Repr

/-- Own properties of the `componentRegistry` object literal:
`chart ↦ Chart`, `table ↦ DataTable`, `card ↦ InfoCard`. -/
def componentRegistry : List (String × RegisteredComponent) :=
  [("chart", RegisteredComponent.chart),
   ("table", RegisteredComponent.table),
   ("card", RegisteredComponent.card)]

/-- Property names a plain object literal inherits from
`Object.prototype`, all bound to functions or objects and hence
truthy under the `!Component` test. -/
def objectPrototypeMembers : List String :=
  ["constructor", "hasOwnProperty", "isPrototypeOf", "propertyIsEnumerable",
   "toLocaleString", "toString", "valueOf", "__proto__",
   "__defineGetter__", "__defineSetter__", "__lookupGetter__", "__lookupSetter__"]

/-- What the JavaScript property access `componentRegistry[name]` can
produce: a registered component (an own property), a truthy value
inherited from `Object.prototype` (for `name` such as `"toString"`),
or `undefined`. -/
inductive RegistryHit where
  | registered (c : RegisteredComponent)
  | inherited (name : String)
  deriving DecidableEq, Repr

/-- JavaScript semantics of `componentRegistry[name]`: own properties
first, then the prototype chain of the object literal; `none` models
`undefined`. -/
def componentRegistryGet (name : String) : Option RegistryHit :=
  match componentRegistry.lookup name with
  | some c => some (RegistryHit.registered c)
  | none =>
      if objectPrototypeMembers.contains name then some (RegistryHit.inherited name)
      else none

/-- What `ComponentRenderer` renders: a registered component
instantiated with the event's props, an attempt to render a value
inherited from `Object.prototype` (which is not a registered
component), or the red error placeholder. -/
inductive RenderOutcome where
  | rendered (c : RegisteredComponent) (props : JValue)
  | renderedInherited (name : String) (props : JValue)
  | unknownComponentError (name : String)

/-- Model of `ComponentRenderer`: `componentRegistry[name]` with JS
property-access semantics; only `undefined` (a name found neither as an
own property nor on `Object.prototype`) takes the `!Component` error
branch — an inherited prototype member is truthy, skips the error
placeholder, and is passed the props and rendered. -/
def ComponentRenderer (name : String) (props : JValue) : RenderOutcome :=
  match componentRegistryGet name with
  | some (RegistryHit.registered c) => RenderOutcome.rendered c props
  | some (RegistryHit.inherited n) => RenderOutcome.renderedInherited n props
  | none => RenderOutcome.unknownComponentError name

/-- The JSON body of the chat request. -/
structure ChatRequestBody where
  message : String
  use_context : Bool
  deriving DecidableEq, Repr

/-- An HTTP request as issued by the client. -/
structure HttpRequest where
  method : String
  path : String
  body : ChatRequestBody
  deriving DecidableEq, Repr

/-- The network requests `sendMessage` makes for one user input: the
single `fetch` of lines 55–65, a POST to `/api/chat/stream` whose body
is the input string with `use_context` hard-coded to `true`. -/
def sendMessageRequests (content : String) : List HttpRequest :=
  [{ method := "POST", path := "/api/chat/stream",
     body := { message := content, use_context := true } }]

/-- The whitespace characters `parseInt` skips (the common ASCII ones). -/
def isJsSpace (c : Char) : Bool :=
  c = ' ' ∨ c = '\t' ∨ c = '\n' ∨ c = '\r' ∨ c = '\x0b' ∨ c = '\x0c'

def isHexDigitChar (c : Char) : Bool :=
  c.isDigit ∨ ('a' ≤ c ∧ c ≤ 'f') ∨ ('A' ≤ c ∧ c ≤ 'F')

def digitCharVal (c : Char) : Nat :=
  if c.isDigit then c.toNat - '0'.toNat
  else if 'a' ≤ c ∧ c ≤ 'f' then c.toNat - 'a'.toNat + 10
  else if 'A' ≤ c ∧ c ≤ 'F' then c.toNat - 'A'.toNat + 10
  else 0

/-- Value of a digit string in the given base. -/
def digitsToNat (base : Nat) (ds : List Char) : Nat :=
  ds.foldl (fun a c => a * base + digitCharVal c) 0

/-- JavaScript `parseInt(s)` with the radix argument omitted: skip
leading whitespace, optional sign, then either a `0x`/`0X`-prefixed hex
digit run or a decimal digit run (longest prefix); `none` models `NaN`. -/
def jsParseInt (s : String) : Option Int :=
  let l := s.data.dropWhile isJsSpace
  let signed : Int × List Char :=
    match l with
    | '-' :: rest => (-1, rest)
    | '+' :: rest => (1, rest)
    | _ => (1, l)
  let sign := signed.1
  let l := signed.2
  match l with
  | '0' :: x :: rest =>
      if x = 'x' ∨ x = 'X' then
        let ds := rest.takeWhile isHexDigitChar
        if ds = [] then none else some (sign * (digitsToNat 16 ds : Nat))
      else
        some (sign * (digitsToNat 10 (('0' :: x :: rest).takeWhile Char.isDigit) : Nat))
  | _ =>
      let ds := l.takeWhile Char.isDigit
      if ds = [] then none else some (sign * (digitsToNat 10 ds : Nat))

/-- The PDF-viewer state set by `handleCitationClick`. -/
structure PdfViewerState where
  isOpen : Bool
  url : Option String
  page : Int
  highlight : Option String
  deriving DecidableEq, Repr

/-- Model of `ChatInterface.handleCitationClick` (lines 124–146): open the viewer
on the source's PDF URL; the page is the `page` field when it is a
number, otherwise `parseInt(page) || 1` (so `NaN` and `0` fall back to
page 1); the clicked source's excerpt is the highlight. -/
def handleCitationClick (baseUrl : String) (src : Source) : PdfViewerState :=
  { isOpen := true,
    url := some (baseUrl ++ "/api/pdfs/" ++ src.pdf_id ++ "/file"),
    page :=
      match src.page with
      | PageField.num n => n
      | PageField.str s =>
          match jsParseInt s with
          | some k => if k = 0 then 1 else k
          | none => 1,
    highlight := some src.text }

/-- The part of a browser `File` the validations look at. -/
structure UploadFile where
  name : String
  size : Nat
  deriving DecidableEq, Repr

inductive UploadStatus where
  | uploading
  | processing
  | complete
  | failed
  deriving DecidableEq, Repr

/-- The `UploadProgress` state created before the upload starts. -/
structure UploadProgress where
  file : UploadFile
  progress : Nat
  status : UploadStatus
  deriving DecidableEq, Repr

/-- The observable outcome of `handleFileUpload` up to the point where
the network call is issued: whether `uploadDocument` was invoked,
the progress state created (if any), and the alert shown (if any). -/
structure UploadOutcome where
  uploadCalled : Bool
  progressCreated : Option UploadProgress
  alertMessage : Option String
  deriving DecidableEq, Repr

/-- Model of `file.name.toLowerCase().endsWith('.pdf')`, modelled on the
character list (ASCII lowering, suffix test). -/
def nameEndsWithPdf (name : String) : Bool :=
  (".pdf".data).isSuffixOf (name.data.map Char.toLower)

/-- Model of `DocumentUpload.handleFileUpload` (lines 15–38): reject non-`.pdf`
names (case-insensitively) with an alert and an early return; reject
files over 10MB likewise; otherwise create the `uploading` progress
state and call `uploadDocument`. -/
def handleFileUpload (f : UploadFile) : UploadOutcome :=
  if ¬ nameEndsWithPdf f.name then
    { uploadCalled := false, progressCreated := none,
      alertMessage := some "Only PDF files are allowed" }
  else if f.size > 10 * 1024 * 1024 then
    { uploadCalled := false, progressCreated := none,
      alertMessage := some "File size must be less than 10MB" }
  else
    { uploadCalled := true,
      progressCreated := some { file := f, progress := 0, status := UploadStatus.uploading },
      alertMessage := none }

/-- A part of the split: literal text, or a captured citation marker
(its digit run, brackets stripped). -/
inductive ContentPart where
  | textPart (cs : List Char)
  | citationPart (digits : List Char)
  deriving DecidableEq, Repr

/-- A match of the regex `\[\d+\]` at the head of the character list:
`'['`, the maximal (greedy, hence nonempty and followed by a non-digit)
digit run, `']'`.  Returns the digits and the remaining characters. -/
def matchCitation (l : List Char) : Option (List Char × List Char) :=
  match l with
  | [] => none
  | c :: rest =>
      let ds := rest.takeWhile Char.isDigit
      let rest2 := rest.dropWhile Char.isDigit
      if c = '[' ∧ ds ≠ [] ∧ rest2.head? = some ']' then some (ds, rest2.tail)
      else none

/-- Merge a character into the leading text part of a part list. -/
def pushText (c : Char) : List ContentPart → List ContentPart
  | ContentPart.textPart cs :: ps => ContentPart.textPart (c :: cs) :: ps
  | ps => ContentPart.textPart [c] :: ps

/-- Leftmost-first scan for `content.split(/(\[\d+\])/g)`; the fuel
argument (always instantiated with the input length, which suffices
since every step consumes at least one character) keeps the recursion
structural. -/
def splitCitationsGo : Nat → List Char → List ContentPart
  | 0, _ => []
  | _ + 1, [] => []
  | fuel + 1, c :: rest =>
      match matchCitation (c :: rest) with
      | some (ds, tail) => ContentPart.citationPart ds :: splitCitationsGo fuel tail
      | none => pushText c (splitCitationsGo fuel rest)

/-- Model of `content.split(/(\[\d+\])/g)` as a list of parts. -/
def splitCitations (l : List Char) : List ContentPart := splitCitationsGo l.length l

/-- Whether a match of `\[\d+\]` starts anywhere in the list. -/
def hasCitation : List Char → Bool
  | [] => false
  | c :: rest => (matchCitation (c :: rest)).isSome || hasCitation rest

/-- The characters a part stands for in the original content. -/
def partChars : ContentPart → List Char
  | ContentPart.textPart cs => cs
  | ContentPart.citationPart ds => '[' :: (ds ++ [']'])

/-- What `renderContent` renders for one message: text spans kept
verbatim, and for each marker a `CitationBadge` numbered
`parseInt(digits)` holding `sources.find(s => s.id === id)`. -/
inductive RenderedNode where
  | textSpan (cs : List Char)
  | badge (digits : List Char) (id : Int) (source : Option Source)
  deriving DecidableEq, Repr

def renderPart (sources : List Source) : ContentPart → RenderedNode
  | ContentPart.textPart cs => RenderedNode.textSpan cs
  | ContentPart.citationPart ds =>
      RenderedNode.badge ds ((digitsToNat 10 ds : Nat) : Int)
        (sources.find? (fun s => s.id = ((digitsToNat 10 ds : Nat) : Int)))

/-- Model of `MessageBubble.renderContent` (lines 18–31). -/
def renderContent (content : String) (sources : List Source) : List RenderedNode :=
  (splitCitations content.data).map (renderPart sources)

/-- The characters a rendered node covers in the original content. -/
def nodeChars : RenderedNode → List Char
  | RenderedNode.textSpan cs => cs
  | RenderedNode.badge ds _ _ => '[' :: (ds ++ [']'])

/-! ### SSE chunk decoding (`useStreamingChat.ts` lines 79–99)

The stream reader decodes each network chunk, splits **that chunk** on
newlines, and JSON-parses every line carrying a `data: ` prefix; a line
that fails `JSON.parse` is caught, logged and skipped.  `JSON.parse` is
modelled by an executable recursive-descent parser of the protocol's
JSON subset (integer numbers, strings with the common single-character
escapes — `\u` escapes are outside the modelled subset, as are
duplicate object keys). -/
def isJsonWs (c : Char) : Bool :=
  c = ' ' ∨ c = '\t' ∨ c = '\n' ∨ c = '\r'

def decodeJsonEscape (e : Char) : Option Char :=
  if e = '"' then some '"'
  else if e = '\\' then some '\\'
  else if e = '/' then some '/'
  else if e = 'n' then some '\n'
  else if e = 't' then some '\t'
  else if e = 'r' then some '\r'
  else if e = 'b' then some '\x08'
  else if e = 'f' then some '\x0c'
  else none

/-- Body of a JSON string literal, after the opening quote: characters
up to the closing quote, escapes decoded; `none` when the input ends
before the string closes. -/
def parseJsonStringBody : List Char → Option (List Char × List Char)
  | [] => none
  | '"' :: rest => some ([], rest)
  | '\\' :: e :: rest =>
      (decodeJsonEscape e).bind fun d =>
        (parseJsonStringBody rest).map fun p => (d :: p.1, p.2)
  | c :: rest =>
      (parseJsonStringBody rest).map fun p => (c :: p.1, p.2)

/-- A JSON integer: optional minus sign, then a digit run. -/
def parseJsonNumber (l : List Char) : Option (Int × List Char) :=
  match l with
  | '-' :: rest =>
      let ds := rest.takeWhile Char.isDigit
      if ds = [] then none
      else some (-((digitsToNat 10 ds : Nat) : Int), rest.dropWhile Char.isDigit)
  | _ =>
      let ds := l.takeWhile Char.isDigit
      if ds = [] then none
      else some (((digitsToNat 10 ds : Nat) : Int), l.dropWhile Char.isDigit)

mutual

/-- A JSON value; the fuel argument (instantiated well above the input
length) keeps the mutual recursion structural. -/
def parseJsonValue : Nat → List Char → Option (JValue × List Char)
  | 0, _ => none
  | fuel + 1, l =>
      match l.dropWhile isJsonWs with
      | [] => none
      | c :: rest =>
          if c = '"' then
            match parseJsonStringBody rest with
            | some (cs, r) => some (JValue.str (String.mk cs), r)
            | none => none
          else if c = 't' then
            match rest with
            | 'r' :: 'u' :: 'e' :: r => some (JValue.bool true, r)
            | _ => none
          else if c = 'f' then
            match rest with
            | 'a' :: 'l' :: 's' :: 'e' :: r => some (JValue.bool false, r)
            | _ => none
          else if c = 'n' then
            match rest with
            | 'u' :: 'l' :: 'l' :: r => some (JValue.null, r)
            | _ => none
          else if c = '[' then
            match rest.dropWhile isJsonWs with
            | ']' :: r => some (JValue.arr [], r)
            | _ =>
                match parseJsonValue fuel rest with
                | none => none
                | some (v, r) =>
                    match parseJsonArrayRest fuel r with
                    | some (vs, r2) => some (JValue.arr (v :: vs), r2)
                    | none => none
          else if c = '\x7b' then
            match rest.dropWhile isJsonWs with
            | '\x7d' :: r => some (JValue.obj [], r)
            | _ =>
                match parseJsonMember fuel rest with
                | none => none
                | some (kv, r) =>
                    match parseJsonObjectRest fuel r with
                    | some (kvs, r2) => some (JValue.obj (kv :: kvs), r2)
                    | none => none
          else
            match parseJsonNumber (c :: rest) with
            | some (n, r) => some (JValue.num n, r)
            | none => none

/-- The remaining elements of an array: `, value`* then `]`. -/
def parseJsonArrayRest : Nat → List Char → Option (List JValue × List Char)
  | 0, _ => none
  | fuel + 1, l =>
      match l.dropWhile isJsonWs with
      | ',' :: r =>
          match parseJsonValue fuel r with
          | none => none
          | some (v, r2) =>
              match parseJsonArrayRest fuel r2 with
              | some (vs, r3) => some (v :: vs, r3)
              | none => none
      | ']' :: r => some ([], r)
      | _ => none

/-- One `"key": value` member of an object. -/
def parseJsonMember : Nat → List Char → Option ((String × JValue) × List Char)
  | 0, _ => none
  | fuel + 1, l =>
      match l.dropWhile isJsonWs with
      | '"' :: r =>
          match parseJsonStringBody r with
          | none => none
          | some (k, r2) =>
              match r2.dropWhile isJsonWs with
              | ':' :: r3 =>
                  match parseJsonValue fuel r3 with
                  | none => none
                  | some (v, r4) => some ((String.mk k, v), r4)
              | _ => none
      | _ => none

/-- The remaining members of an object: `, member`* then the closing
brace. -/
def parseJsonObjectRest : Nat → List Char → Option (List (String × JValue) × List Char)
  | 0, _ => none
  | fuel + 1, l =>
      match l.dropWhile isJsonWs with
      | ',' :: r =>
          match parseJsonMember fuel r with
          | none => none
          | some (kv, r2) =>
              match parseJsonObjectRest fuel r2 with
              | some (kvs, r3) => some (kv :: kvs, r3)
              | none => none
      | '\x7d' :: r => some ([], r)
      | _ => none

end

/-- Model of `JSON.parse` on a whole line payload: one value, nothing but
whitespace after it. -/
def parseJson (l : List Char) : Option JValue :=
  match parseJsonValue (2 * l.length + 8) l with
  | some (v, r) => if r.dropWhile isJsonWs = [] then some v else none
  | none => none

/-- A `sources` payload element into a `Source` record. -/
def parseSourceJson (v : JValue) : Option Source :=
  match v with
  | JValue.obj fields =>
      match fields.lookup "id", fields.lookup "pdf_id", fields.lookup "filename",
            fields.lookup "page", fields.lookup "text" with
      | some (JValue.num i), some (JValue.str p), some (JValue.str f),
        some pg, some (JValue.str t) =>
          match pg with
          | JValue.num n =>
              some { id := i, pdf_id := p, filename := f, page := PageField.num n, text := t }
          | JValue.str s =>
              some { id := i, pdf_id := p, filename := f, page := PageField.str s, text := t }
          | _ => none
      | _, _, _, _, _ => none
  | _ => none

def parseSourceList : List JValue → Option (List Source)
  | [] => some []
  | v :: vs =>
      match parseSourceJson v, parseSourceList vs with
      | some s, some ss => some (s :: ss)
      | _, _ => none

/-- Dispatch of a parsed `data` object on its `type` field, mirroring
the `if/else if` chain; a payload that does not fit the protocol shape
of its type is `other` (no branch of the handler changes state on it). -/
def jsonToEvent (v : JValue) : SEvent :=
  match v with
  | JValue.obj fields =>
      match fields.lookup "type" with
      | some (JValue.str t) =>
          if t = "text" then
            match fields.lookup "content" with
            | some (JValue.str c) => SEvent.text c
            | _ => SEvent.other
          else if t = "tool_call" then
            match fields.lookup "name", fields.lookup "status" with
            | some (JValue.str n), some (JValue.str st) => SEvent.tool_call n st
            | _, _ => SEvent.other
          else if t = "component" then
            match fields.lookup "name" with
            | some (JValue.str n) =>
                SEvent.component n ((fields.lookup "props").getD JValue.null)
            | _ => SEvent.other
          else if t = "sources" then
            match fields.lookup "content" with
            | some (JValue.arr vs) =>
                match parseSourceList vs with
                | some ss => SEvent.sources ss
                | none => SEvent.other
            | _ => SEvent.other
          else if t = "done" then SEvent.done
          else if t = "error" then
            match fields.lookup "content" with
            | some (JValue.str c) => SEvent.error c
            | _ => SEvent.other
          else SEvent.other
      | _ => SEvent.other
  | _ => SEvent.other

/-- Model of `chunk.split('\n')` on character lists, with JavaScript semantics
(empty trailing piece after a final newline, `[""]` on empty input). -/
def splitOnChar (sep : Char) : List Char → List (List Char)
  | [] => [[]]
  | c :: rest =>
      if c = sep then [] :: splitOnChar sep rest
      else
        match splitOnChar sep rest with
        | [] => [[c]]
        | p :: ps => (c :: p) :: ps

/-- Model of `line.startsWith('data: ')`. -/
def startsWithData (line : List Char) : Bool :=
  ("data: ".data).isPrefixOf line

/-- The loop state of the reader: the React state plus whether the
`return` in a terminal branch has exited `sendMessage`. -/
structure StreamLoopState where
  chat : ChatState
  halted : Bool

/-- One line of a chunk (`useStreamingChat.ts` lines 95–181): only
`data: `-prefixed lines are considered; `line.substring(6)` is parsed
as JSON — a parse failure is caught and the line skipped — and the
resulting event applied; `done`/`error` halt the loop. -/
def processLine (aid : String) (st : StreamLoopState) (line : List Char) : StreamLoopState :=
  if st.halted then st
  else if startsWithData line then
    match parseJson (line.drop 6) with
    | none => st
    | some v =>
        let ev := jsonToEvent v
        { chat := applyEvent aid st.chat ev, halted := isTerminalEvent ev }
  else st

/-- One network chunk: split **this chunk alone** on newlines and
process each line (`useStreamingChat.ts` lines 87–95). -/
def processChunk (aid : String) (st : StreamLoopState) (chunk : List Char) : StreamLoopState :=
  (splitOnChar '\n' chunk).foldl (processLine aid) st

/-- The whole read loop of `sendMessage` over a partition of the SSE
byte stream into chunks, from the placeholder state; if the loop ends
without a terminal event the trailing `setIsStreaming(false)` of line
185 still runs. -/
def runStreamChunks (now : Nat) (input : String) (chunks : List (List Char)) : ChatState :=
  let st := chunks.foldl (processChunk (assistantMessageId now))
    { chat := initialState now input, halted := false }
  if st.halted then st.chat else { st.chat with isStreaming := false }

/-- The SSE stream `data: {"type": "text", "content": "hi"}\n`. -/
def sseStream : List Char :=
  ("data: \x7b\"type\": \"text\", \"content\": \"hi\"\x7d\n").data

/-- The same stream delivered as one chunk. -/
def sseChunksWhole : List (List Char) := [sseStream]

/-- The same stream delivered in two chunks, the boundary falling
inside the `data:` line (after 10 bytes). -/
def sseChunksSplit : List (List Char) := [sseStream.take 10, sseStream.drop 10]

/-- Mapping an id-filtered update over the message list commutes with
looking a message up by id: only the looked-up message is rewritten. -/
theorem find?_map_update (l : List Msg) (aid : String) (g : Msg → Msg)
    (hid : ∀ m, (g m).id = m.id) :
    (l.map (fun m => if m.id = aid then g m else m)).find? (fun m => m.id = aid)
      = (l.find? (fun m => m.id = aid)).map g := by
  rw [List.find?_map]
  have hcomp : ((fun m : Msg => (decide (m.id = aid))) ∘ fun m => if m.id = aid then g m else m)
      = fun m : Msg => decide (m.id = aid) := by
    funext m
    by_cases h : m.id = aid
    · simp [h, hid m]
    · simp [h]
  rw [hcomp]
  cases h : l.find? (fun m => decide (m.id = aid)) with
  | none => rfl
  | some m =>
    have hm : m.id = aid := by simpa using List.find?_some h
    simp [hm]

/-- How each event type changes the assistant message's `content`:
a `text` event appends its payload, every other event leaves it alone. -/
theorem contentOpt_applyEvent (aid : String) (s : ChatState) (e : SEvent) :
    contentOpt (applyEvent aid s e) aid =
      match e with
      | .text c => (contentOpt s aid).map (fun x => x ++ c)
      | _ => contentOpt s aid := by
  cases e with
  | text c =>
    simp only [applyEvent, contentOpt]
    rw [find?_map_update s.messages aid (fun m => { m with content := m.content ++ c })
      (fun m => rfl)]
    cases s.messages.find? (fun m => m.id = aid) <;> rfl
  | tool_call n st =>
    simp only [applyEvent, contentOpt]
    rw [find?_map_update s.messages aid
      (fun m => { m with toolCalls := some (updateToolCalls (m.toolCalls.getD []) n st) })
      (fun m => rfl)]
    cases s.messages.find? (fun m => m.id = aid) <;> rfl
  | component n props =>
    simp only [applyEvent, contentOpt]
    rw [find?_map_update s.messages aid
      (fun m => { m with components := some ((m.components.getD []) ++ [{ name := n, props := props }]) })
      (fun m => rfl)]
    cases s.messages.find? (fun m => m.id = aid) <;> rfl
  | sources content =>
    simp only [applyEvent, contentOpt]
    rw [find?_map_update s.messages aid (fun m => { m with sources := some content })
      (fun m => rfl)]
    cases s.messages.find? (fun m => m.id = aid) <;> rfl
  | done =>
    simp only [applyEvent, contentOpt]
    rw [find?_map_update s.messages aid (fun m => { m with isStreaming := some false })
      (fun m => rfl)]
    cases s.messages.find? (fun m => m.id = aid) <;> rfl
  | error c => rfl
  | other => rfl

/-- Accumulation over the event loop: starting from assistant content
`c₀`, the final content is `c₀` followed by the concatenated `text`
payloads of the processed prefix. -/
theorem contentOpt_processEvents (aid : String) :
    ∀ (evs : List SEvent) (s : ChatState) (c₀ : String),
    contentOpt s aid = some c₀ →
    contentOpt (processEvents aid s evs) aid
      = some (c₀ ++ textConcat (takeUntilTerminal evs)) := by
  intro evs
  induction evs with
  | nil =>
    intro s c₀ h
    simpa [processEvents, takeUntilTerminal, textConcat, String.append_empty] using h
  | cons e rest ih =>
    intro s c₀ h
    by_cases ht : isTerminalEvent e
    · have hnt : ∀ c, e ≠ SEvent.text c := by
        intro c hc; subst hc; simp [isTerminalEvent] at ht
      have hcontent : contentOpt (applyEvent aid s e) aid = contentOpt s aid := by
        rw [contentOpt_applyEvent]
        cases e <;> first | rfl | exact absurd rfl (hnt _)
      have htext : textConcat (takeUntilTerminal (e :: rest)) = "" := by
        simp only [takeUntilTerminal, if_pos ht]
        cases e <;> first | rfl | exact absurd rfl (hnt _)
      rw [htext, String.append_empty]
      simp only [processEvents, if_pos ht]
      rw [hcontent]
      exact h
    · have hproc : processEvents aid s (e :: rest)
          = processEvents aid (applyEvent aid s e) rest := by
        simp [processEvents, ht]
      have htake : takeUntilTerminal (e :: rest) = e :: takeUntilTerminal rest := by
        simp [takeUntilTerminal, ht]
    -- split on whether `e` is a text event
      cases e with
      | text c =>
        have h1 : contentOpt (applyEvent aid s (SEvent.text c)) aid = some (c₀ ++ c) := by
          rw [contentOpt_applyEvent, h]; rfl
        rw [hproc, ih _ _ h1, htake]
        simp [textConcat, String.append_assoc]
      | tool_call n st =>
        have h1 := contentOpt_applyEvent aid s (SEvent.tool_call n st)
        rw [hproc, ih _ _ (h1.trans h), htake]
        simp [textConcat]
      | component n props =>
        have h1 := contentOpt_applyEvent aid s (SEvent.component n props)
        rw [hproc, ih _ _ (h1.trans h), htake]
        simp [textConcat]
      | sources content =>
        have h1 := contentOpt_applyEvent aid s (SEvent.sources content)
        rw [hproc, ih _ _ (h1.trans h), htake]
        simp [textConcat]
      | done => simp [isTerminalEvent] at ht
      | error c => simp [isTerminalEvent] at ht
      | other =>
        have h1 := contentOpt_applyEvent aid s SEvent.other
        rw [hproc, ih _ _ (h1.trans h), htake]
        simp [textConcat]

/-- C1: the assistant message's final content equals the concatenation,
in arrival order, of the `content` fields of the `text` events processed
before (and none after) the terminal event, and no event type other than
`text` changes the content field.  The first conjunct covers every run
of the stream reader from a state whose assistant content is `c₀`
(`c₀ = ""` for the placeholder created by `sendMessage`); the second
states the frame for all non-`text` events. -/
theorem text_events_concatenate (aid : String) (s : ChatState) (evs : List SEvent) :
    (∀ c₀ : String, contentOpt s aid = some c₀ →
      contentOpt (processEvents aid s evs) aid
        = some (c₀ ++ textConcat (takeUntilTerminal evs)))
    ∧ (∀ e : SEvent, (∀ c, e ≠ SEvent.text c) →
        contentOpt (applyEvent aid s e) aid = contentOpt s aid) := by
  constructor
  · intro c₀ h
    exact contentOpt_processEvents aid evs s c₀ h
  · intro e hnt
    rw [contentOpt_applyEvent]
    cases e <;> first | rfl | exact absurd rfl (hnt _)

/-- C1 witness: concretely, from the placeholder state of `sendMessage`
the stream `[text "Hel", tool_call, text "lo", done, text "XX"]` yields
content `"Hello"` — the two text chunks concatenated, the post-`done`
chunk dropped. -/
theorem text_events_concatenate_witness :
    contentOpt
      (processEvents (assistantMessageId 0) (initialState 0 "hi")
        [SEvent.text "Hel", SEvent.tool_call "searching_documents" "in_progress",
         SEvent.text "lo", SEvent.done, SEvent.text "XX"])
      (assistantMessageId 0) = some "Hello" := by
  have h := (text_events_concatenate (assistantMessageId 0) (initialState 0 "hi")
    [SEvent.text "Hel", SEvent.tool_call "searching_documents" "in_progress",
     SEvent.text "lo", SEvent.done, SEvent.text "XX"]).1 "" (by decide)
  rw [h]
  decide

/-- C4: processing an `error` event leaves the entire message list — in
particular the assistant message's accumulated content, sources, tool
calls and components — untouched; it only sets the displayed error
message to the event's content and clears the streaming flag. -/
theorem error_event_preserves_partial_text (aid : String) (s : ChatState) (c : String) :
    (applyEvent aid s (SEvent.error c)).messages = s.messages
    ∧ (applyEvent aid s (SEvent.error c)).error = some c
    ∧ (applyEvent aid s (SEvent.error c)).isStreaming = false
    ∧ contentOpt (applyEvent aid s (SEvent.error c)) aid = contentOpt s aid
    ∧ sourcesOpt (applyEvent aid s (SEvent.error c)) aid = sourcesOpt s aid
    ∧ toolCallsOpt (applyEvent aid s (SEvent.error c)) aid = toolCallsOpt s aid
    ∧ componentsOpt (applyEvent aid s (SEvent.error c)) aid = componentsOpt s aid :=
  ⟨rfl, rfl, rfl, rfl, rfl, rfl, rfl⟩

/-- The event loop never looks past the first terminal event. -/
theorem processEvents_stops_at_terminal (aid : String) (t : SEvent) (rest : List SEvent)
    (ht : isTerminalEvent t = true) :
    ∀ (pfx : List SEvent) (s : ChatState), (∀ e ∈ pfx, isTerminalEvent e = false) →
    processEvents aid s (pfx ++ t :: rest) = applyEvent aid (processEvents aid s pfx) t := by
  intro pfx
  induction pfx with
  | nil =>
    intro s _
    simp [processEvents, ht]
  | cons e p ih =>
    intro s h
    have he : isTerminalEvent e = false := h e (by simp)
    simp only [List.cons_append, processEvents, he, Bool.false_eq_true, if_false]
    exact ih (applyEvent aid s e) (fun x hx => h x (by simp [hx]))

/-- C3: for every stream, events after the first `done` or `error` are
never applied (the final state equals the state right after the first
terminal event), and exactly one terminal outcome is taken: `done`
clears the streaming flag and leaves the error display unchanged, while
`error` sets the error display to its content, clears the streaming
flag, and leaves the message list unchanged. -/
theorem terminal_event_ends_processing (aid : String) (s : ChatState)
    (pfx : List SEvent) (t : SEvent) (rest : List SEvent)
    (hp : ∀ e ∈ pfx, isTerminalEvent e = false) (ht : isTerminalEvent t = true) :
    processEvents aid s (pfx ++ t :: rest) = applyEvent aid (processEvents aid s pfx) t
    ∧ (t = SEvent.done →
        (processEvents aid s (pfx ++ t :: rest)).isStreaming = false
        ∧ (processEvents aid s (pfx ++ t :: rest)).error = (processEvents aid s pfx).error)
    ∧ (∀ c, t = SEvent.error c →
        (processEvents aid s (pfx ++ t :: rest)).isStreaming = false
        ∧ (processEvents aid s (pfx ++ t :: rest)).error = some c
        ∧ (processEvents aid s (pfx ++ t :: rest)).messages = (processEvents aid s pfx).messages) := by
  have hstop := processEvents_stops_at_terminal aid t rest ht pfx s hp
  refine ⟨hstop, ?_, ?_⟩
  · intro hdone
    subst hdone
    rw [hstop]
    exact ⟨rfl, rfl⟩
  · intro c herr
    subst herr
    rw [hstop]
    exact ⟨rfl, rfl, rfl⟩

/-- C3 witness: with prefix `[text "a"]`, terminal `done` and trailing
garbage `[text "b"]`, the loop's final state is the state after the
prefix with `done` applied, streaming cleared and no error. -/
theorem terminal_event_ends_processing_witness :
    processEvents "msg_1" (initialState 0 "q") ([SEvent.text "a"] ++ SEvent.done :: [SEvent.text "b"])
      = applyEvent "msg_1" (processEvents "msg_1" (initialState 0 "q") [SEvent.text "a"]) SEvent.done
    ∧ (processEvents "msg_1" (initialState 0 "q")
        ([SEvent.text "a"] ++ SEvent.done :: [SEvent.text "b"])).isStreaming = false := by
  have h := terminal_event_ends_processing "msg_1" (initialState 0 "q")
    [SEvent.text "a"] SEvent.done [SEvent.text "b"] (by intro e he; simp at he; simp [he, isTerminalEvent]) rfl
  exact ⟨h.1, (h.2.1 rfl).1⟩

theorem updateToolCalls_eq_rec (n st : String) :
    ∀ tcs : List ToolCall, updateToolCalls tcs n st = updateToolCallsRec n st tcs := by
  intro tcs
  induction tcs with
  | nil => rfl
  | cons tc rest ih =>
    by_cases h : tc.name = n
    · simp [updateToolCalls, updateToolCallsRec, List.findIdx?_cons, h]
    · cases hidx : rest.findIdx? (fun tc => decide (tc.name = n)) with
      | none =>
        simp only [updateToolCalls, hidx] at ih
        simp [updateToolCalls, updateToolCallsRec, List.findIdx?_cons,
          List.findIdx?_succ, h, hidx, ← ih]
      | some i =>
        simp only [updateToolCalls, hidx] at ih
        simp [updateToolCalls, updateToolCallsRec, List.findIdx?_cons,
          List.findIdx?_succ, h, hidx, ← ih, List.set_cons_succ]

/-- The names in the tool-call list after an update: unchanged (in the
same order) if the incoming name is already present, otherwise the old
names with the new one appended. -/
theorem updateToolCalls_names (tcs : List ToolCall) (n st : String) :
    (updateToolCalls tcs n st).map ToolCall.name
      = if n ∈ tcs.map ToolCall.name then tcs.map ToolCall.name
        else tcs.map ToolCall.name ++ [n] := by
  rw [updateToolCalls_eq_rec]
  induction tcs with
  | nil => simp [updateToolCallsRec]
  | cons tc rest ih =>
    by_cases h : tc.name = n
    · simp [updateToolCallsRec, h]
    · simp only [updateToolCallsRec, if_neg h, List.map_cons, ih]
      have hne : ¬ n = tc.name := fun hc => h hc.symm
      by_cases hmem : n ∈ rest.map ToolCall.name
      · simp [hmem, hne]
      · simp [hmem, hne]

theorem updateToolCalls_names_nodup (tcs : List ToolCall) (n st : String)
    (h : (tcs.map ToolCall.name).Nodup) :
    ((updateToolCalls tcs n st).map ToolCall.name).Nodup := by
  rw [updateToolCalls_names]
  by_cases hmem : n ∈ tcs.map ToolCall.name
  · simpa [hmem] using h
  · simp only [if_neg hmem]
    simp [List.nodup_append, h, hmem]

theorem toolNamesNodup_applyEvent (aid : String) (s : ChatState) (e : SEvent)
    (h : ToolNamesNodup s) : ToolNamesNodup (applyEvent aid s e) := by
  cases e with
  | tool_call n st =>
    intro m hm
    simp only [applyEvent] at hm
    obtain ⟨m₀, hm₀, rfl⟩ := List.mem_map.mp hm
    by_cases hid : m₀.id = aid
    · simp only [hid, if_pos rfl, msgToolNames, Option.getD_some]
      exact updateToolCalls_names_nodup _ n st (h m₀ hm₀)
    · simpa [hid, msgToolNames] using h m₀ hm₀
  | text c =>
    intro m hm
    simp only [applyEvent] at hm
    obtain ⟨m₀, hm₀, rfl⟩ := List.mem_map.mp hm
    by_cases hid : m₀.id = aid <;> simpa [hid, msgToolNames] using h m₀ hm₀
  | component n props =>
    intro m hm
    simp only [applyEvent] at hm
    obtain ⟨m₀, hm₀, rfl⟩ := List.mem_map.mp hm
    by_cases hid : m₀.id = aid <;> simpa [hid, msgToolNames] using h m₀ hm₀
  | sources content =>
    intro m hm
    simp only [applyEvent] at hm
    obtain ⟨m₀, hm₀, rfl⟩ := List.mem_map.mp hm
    by_cases hid : m₀.id = aid <;> simpa [hid, msgToolNames] using h m₀ hm₀
  | done =>
    intro m hm
    simp only [applyEvent] at hm
    obtain ⟨m₀, hm₀, rfl⟩ := List.mem_map.mp hm
    by_cases hid : m₀.id = aid <;> simpa [hid, msgToolNames] using h m₀ hm₀
  | error c => exact h
  | other => exact h

theorem toolNamesNodup_processEvents (aid : String) :
    ∀ (evs : List SEvent) (s : ChatState), ToolNamesNodup s →
    ToolNamesNodup (processEvents aid s evs) := by
  intro evs
  induction evs with
  | nil => intro s h; exact h
  | cons e rest ih =>
    intro s h
    by_cases ht : isTerminalEvent e
    · simpa [processEvents, ht] using toolNamesNodup_applyEvent aid s e h
    · simpa [processEvents, ht] using ih _ (toolNamesNodup_applyEvent aid s e h)

/-- C8: the assistant message's tool-call list never holds two entries
with the same stage name.  First conjunct: an incoming `tool_call` whose
name is already present rewrites that entry in place, leaving the name
sequence (hence the order of first appearance) unchanged, and otherwise
appends.  Second conjunct: from the `sendMessage` placeholder state, the
name list is duplicate-free after any number of processed events. -/
theorem tool_call_names_nodup :
    (∀ (tcs : List ToolCall) (n st : String),
      (updateToolCalls tcs n st).map ToolCall.name
        = if n ∈ tcs.map ToolCall.name then tcs.map ToolCall.name
          else tcs.map ToolCall.name ++ [n])
    ∧ (∀ (now : Nat) (input : String) (evs : List SEvent),
        ((assistantToolCalls
            (processEvents (assistantMessageId now) (initialState now input) evs)
            (assistantMessageId now)).map ToolCall.name).Nodup) := by
  constructor
  · exact updateToolCalls_names
  · intro now input evs
    have hinit : ToolNamesNodup (initialState now input) := by
      intro m hm
      simp only [initialState, List.mem_cons, List.mem_singleton] at hm
      rcases hm with rfl | rfl | h
      · simp [msgToolNames]
      · simp [msgToolNames]
      · cases h
    have hfin := toolNamesNodup_processEvents (assistantMessageId now) evs _ hinit
    unfold assistantToolCalls
    cases hfind : (processEvents (assistantMessageId now) (initialState now input) evs).messages.find?
        (fun m => m.id = assistantMessageId now) with
    | none => simp
    | some m =>
      have hmem := List.mem_of_find?_eq_some hfind
      exact hfin m hmem

/-- C6 counterexample: the dispatch is not a closed mapping.  For the
unregistered name `toString`, `componentRegistry["toString"]` finds the
truthy `Object.prototype.toString`, so the `!Component` error branch is
skipped and the inherited value — not a registered component — is
rendered with the event's props, instead of the claimed error
placeholder. -/
theorem component_dispatch_not_closed :
    ComponentRenderer "toString" JValue.null
      = RenderOutcome.renderedInherited "toString" JValue.null
    ∧ ComponentRenderer "toString" JValue.null
      ≠ RenderOutcome.unknownComponentError "toString" := by
  constructor
  · rfl
  · have h1 : ComponentRenderer "toString" JValue.null
        = RenderOutcome.renderedInherited "toString" JValue.null := rfl
    rw [h1]
    intro h
    cases h

/-- C6 (amended): `chart`, `table` and `card` dispatch to exactly the
corresponding registered component, carrying the event's props; every
other name that is not an inherited `Object.prototype` property name
yields the error placeholder and no component; but a name of an
`Object.prototype` member (such as `toString` or `constructor`) finds
the truthy inherited value, skips the error placeholder, and dispatches
that inherited value, which is no registered component. -/
theorem component_dispatch_amended (name : String) (props : JValue) :
    (name = "chart" → ComponentRenderer name props
      = RenderOutcome.rendered RegisteredComponent.chart props)
    ∧ (name = "table" → ComponentRenderer name props
      = RenderOutcome.rendered RegisteredComponent.table props)
    ∧ (name = "card" → ComponentRenderer name props
      = RenderOutcome.rendered RegisteredComponent.card props)
    ∧ (name ≠ "chart" → name ≠ "table" → name ≠ "card" →
        objectPrototypeMembers.contains name = false →
        ComponentRenderer name props = RenderOutcome.unknownComponentError name)
    ∧ (name ≠ "chart" → name ≠ "table" → name ≠ "card" →
        objectPrototypeMembers.contains name = true →
        ComponentRenderer name props = RenderOutcome.renderedInherited name props) := by
  refine ⟨?_, ?_, ?_, ?_, ?_⟩
  · intro h; subst h; rfl
  · intro h; subst h; rfl
  · intro h; subst h; rfl
  · intro h1 h2 h3 h4
    have b1 : (name == "chart") = false := by simpa using h1
    have b2 : (name == "table") = false := by simpa using h2
    have b3 : (name == "card") = false := by simpa using h3
    have hm : ¬ name ∈ objectPrototypeMembers := by simpa using h4
    simp [ComponentRenderer, componentRegistryGet, componentRegistry,
      List.lookup, b1, b2, b3, hm]
  · intro h1 h2 h3 h4
    have b1 : (name == "chart") = false := by simpa using h1
    have b2 : (name == "table") = false := by simpa using h2
    have b3 : (name == "card") = false := by simpa using h3
    have hm : name ∈ objectPrototypeMembers := by simpa using h4
    simp [ComponentRenderer, componentRegistryGet, componentRegistry,
      List.lookup, b1, b2, b3, hm]

/-- C6 witness: `chart` renders the Chart component with the passed
props; the unregistered, non-prototype name `widget` renders the error
box; the prototype name `constructor` dispatches the inherited value. -/
theorem component_dispatch_amended_witness :
    ComponentRenderer "chart" JValue.null
      = RenderOutcome.rendered RegisteredComponent.chart JValue.null
    ∧ ComponentRenderer "widget" JValue.null
      = RenderOutcome.unknownComponentError "widget"
    ∧ ComponentRenderer "constructor" JValue.null
      = RenderOutcome.renderedInherited "constructor" JValue.null :=
  ⟨(component_dispatch_amended "chart" JValue.null).1 rfl,
   (component_dispatch_amended "widget" JValue.null).2.2.2.1
     (by decide) (by decide) (by decide) (by decide),
   (component_dispatch_amended "constructor" JValue.null).2.2.2.2
     (by decide) (by decide) (by decide) (by decide)⟩

/-- C7: for every input string, `sendMessage` issues exactly one POST
whose JSON body is the input as `message` with `use_context = true`;
in particular `use_context = false` is never sent. -/
theorem send_message_single_post (content : String) :
    sendMessageRequests content
      = [{ method := "POST", path := "/api/chat/stream",
           body := { message := content, use_context := true } }]
    ∧ (sendMessageRequests content).length = 1
    ∧ (sendMessageRequests content).all (fun r => r.body.use_context) = true :=
  ⟨rfl, rfl, rfl⟩

/-- C9: a citation click opens the viewer at the source's page when
`page` is a number, at the parsed leading integer when `page` is a
string parsing to a nonzero value, and at page 1 when parsing fails
(`NaN`) or yields 0; the viewer URL is always built from the source's
`pdf_id`. -/
theorem citation_click_page_resolution (baseUrl : String) (src : Source) :
    (handleCitationClick baseUrl src).url
      = some (baseUrl ++ "/api/pdfs/" ++ src.pdf_id ++ "/file")
    ∧ (handleCitationClick baseUrl src).isOpen = true
    ∧ (∀ n : Int, src.page = PageField.num n → (handleCitationClick baseUrl src).page = n)
    ∧ (∀ (s : String) (k : Int), src.page = PageField.str s → jsParseInt s = some k →
        k ≠ 0 → (handleCitationClick baseUrl src).page = k)
    ∧ (∀ s : String, src.page = PageField.str s →
        (jsParseInt s = none ∨ jsParseInt s = some 0) →
        (handleCitationClick baseUrl src).page = 1) := by
  refine ⟨rfl, rfl, ?_, ?_, ?_⟩
  · intro n h
    simp [handleCitationClick, h]
  · intro s k h hk hk0
    simp [handleCitationClick, h, hk, hk0]
  · intro s h hp
    rcases hp with hp | hp <;> simp [handleCitationClick, h, hp]

/-- C9 witness: concrete clicks — numeric page 7 used as is; string
`" 12abc"` parses to 12; string `"p5"` fails to parse and falls back to
page 1; string `"0"` parses to 0 and falls back to page 1. -/
theorem citation_click_page_resolution_witness :
    (handleCitationClick "http://localhost:8000"
        { id := 1, pdf_id := "doc1", filename := "a.pdf",
          page := PageField.num 7, text := "quote" }).page = 7
    ∧ (handleCitationClick "http://localhost:8000"
        { id := 1, pdf_id := "doc1", filename := "a.pdf",
          page := PageField.str " 12abc", text := "quote" }).page = 12
    ∧ (handleCitationClick "http://localhost:8000"
        { id := 1, pdf_id := "doc1", filename := "a.pdf",
          page := PageField.str "p5", text := "quote" }).page = 1
    ∧ (handleCitationClick "http://localhost:8000"
        { id := 1, pdf_id := "doc1", filename := "a.pdf",
          page := PageField.str "0", text := "quote" }).page = 1
    ∧ (handleCitationClick "http://localhost:8000"
        { id := 1, pdf_id := "doc1", filename := "a.pdf",
          page := PageField.num 7, text := "quote" }).url
      = some "http://localhost:8000/api/pdfs/doc1/file" := by
  refine ⟨?_, ?_, ?_, ?_, ?_⟩
  · exact (citation_click_page_resolution "http://localhost:8000" _).2.2.1 7 rfl
  · exact (citation_click_page_resolution "http://localhost:8000" _).2.2.2.1
      " 12abc" 12 rfl (by decide) (by decide)
  · exact (citation_click_page_resolution "http://localhost:8000" _).2.2.2.2
      "p5" rfl (Or.inl (by decide))
  · exact (citation_click_page_resolution "http://localhost:8000" _).2.2.2.2
      "0" rfl (Or.inr (by decide))
  · exact (citation_click_page_resolution "http://localhost:8000" _).1

/-- C10: a file that fails either validation — name not ending in
`.pdf` case-insensitively, or size above `10 * 1024 * 1024` bytes —
never reaches `uploadDocument` and creates no upload-progress state. -/
theorem invalid_file_never_uploaded (f : UploadFile)
    (h : ¬ nameEndsWithPdf f.name ∨ f.size > 10 * 1024 * 1024) :
    (handleFileUpload f).uploadCalled = false
    ∧ (handleFileUpload f).progressCreated = none := by
  rcases h with h | h
  · simp [handleFileUpload, h]
  · by_cases hn : nameEndsWithPdf f.name
    · simp [handleFileUpload, hn, h]
    · simp [handleFileUpload, hn]

/-- C10 witness: `notes.txt` (wrong extension) and an 11MB
`big.PDF` (right extension after lowercasing, but too large) are both
rejected without an upload or progress state. -/
theorem invalid_file_never_uploaded_witness :
    ((handleFileUpload { name := "notes.txt", size := 100 }).uploadCalled = false
      ∧ (handleFileUpload { name := "notes.txt", size := 100 }).progressCreated = none)
    ∧ ((handleFileUpload { name := "big.PDF", size := 11534336 }).uploadCalled = false
      ∧ (handleFileUpload { name := "big.PDF", size := 11534336 }).progressCreated = none) :=
  ⟨invalid_file_never_uploaded { name := "notes.txt", size := 100 } (Or.inl (by decide)),
   invalid_file_never_uploaded { name := "big.PDF", size := 11534336 } (Or.inr (by decide))⟩

theorem matchCitation_eq_some {l ds tail : List Char}
    (h : matchCitation l = some (ds, tail)) :
    l = '[' :: (ds ++ ']' :: tail) ∧ ds ≠ [] ∧ ds.all Char.isDigit := by
  cases l with
  | nil => simp [matchCitation] at h
  | cons c rest =>
    simp only [matchCitation] at h
    split at h
    case isTrue hcond =>
      obtain ⟨hc, hds, hh⟩ := hcond
      simp only [Option.some.injEq, Prod.mk.injEq] at h
      obtain ⟨hds', htail⟩ := h
      subst hc
      have hr2 : rest.dropWhile Char.isDigit
          = ']' :: (rest.dropWhile Char.isDigit).tail := by
        cases h2 : rest.dropWhile Char.isDigit with
        | nil => rw [h2] at hh; simp at hh
        | cons d t =>
          rw [h2] at hh
          simp only [List.head?_cons, Option.some.injEq] at hh
          simp [hh]
      refine ⟨?_, hds' ▸ hds, ?_⟩
      · rw [← hds', ← htail, ← hr2, List.takeWhile_append_dropWhile]
      · rw [← hds', List.all_eq_true]
        intro x hx
        exact List.mem_takeWhile_imp hx
    case isFalse => exact absurd h (by simp)

theorem matchCitation_some_length {l ds tail : List Char}
    (h : matchCitation l = some (ds, tail)) : tail.length + 2 ≤ l.length := by
  obtain ⟨hl, hds, _⟩ := matchCitation_eq_some h
  subst hl
  simp only [List.length_cons, List.length_append]
  omega

theorem takeWhile_append_all {p : Char → Bool} :
    ∀ (ds : List Char), ds.all p → ∀ (b : Char), p b = false → ∀ z : List Char,
    (ds ++ b :: z).takeWhile p = ds ∧ (ds ++ b :: z).dropWhile p = b :: z := by
  intro ds
  induction ds with
  | nil =>
    intro _ b hb z
    simp [List.takeWhile_cons, List.dropWhile_cons, hb]
  | cons d ds ih =>
    intro hall b hb z
    simp only [List.all_cons, Bool.and_eq_true] at hall
    have := ih hall.2 b hb z
    simp [List.takeWhile_cons, List.dropWhile_cons, hall.1, this.1, this.2]

/-- Converse construction: a well-formed marker at the head matches. -/
theorem matchCitation_marker (ds tail : List Char) (hds : ds ≠ [])
    (hall : ds.all Char.isDigit) :
    matchCitation ('[' :: (ds ++ ']' :: tail)) = some (ds, tail) := by
  have hksq : Char.isDigit ']' = false := by decide
  obtain ⟨ht, hd⟩ := takeWhile_append_all ds hall ']' hksq tail
  simp [matchCitation, ht, hd, hds]

/-- If the regex does not match at a position, it does not match there
for any prefix of the remaining input either. -/
theorem matchCitation_none_mono {c : Char} {t u : List Char}
    (h : matchCitation (c :: (t ++ u)) = none) : matchCitation (c :: t) = none := by
  cases hm : matchCitation (c :: t) with
  | none => rfl
  | some p =>
    obtain ⟨ds, tail⟩ := p
    obtain ⟨hl, hds, hall⟩ := matchCitation_eq_some hm
    obtain ⟨hc, ht⟩ := List.cons.injEq .. ▸ hl
    subst hc; subst ht
    rw [show (ds ++ ']' :: tail) ++ u = ds ++ ']' :: (tail ++ u) by simp] at h
    rw [matchCitation_marker ds (tail ++ u) hds hall] at h
    cases h

/-- The leading text part produced by the scan is a prefix of its
input. -/
theorem splitCitationsGo_leading_text :
    ∀ (fuel : Nat) (l t : List Char) (ps : List ContentPart), l.length ≤ fuel →
    splitCitationsGo fuel l = ContentPart.textPart t :: ps → t <+: l := by
  intro fuel
  induction fuel with
  | zero =>
    intro l t ps hlen h
    have : l = [] := List.length_eq_zero.mp (Nat.le_zero.mp hlen)
    subst this
    cases h
  | succ fuel ih =>
    intro l t ps hlen h
    cases l with
    | nil => cases h
    | cons c rest =>
      cases hm : matchCitation (c :: rest) with
      | some p =>
        simp only [splitCitationsGo, hm] at h
        cases h
      | none =>
        simp only [splitCitationsGo, hm] at h
        cases hgo : splitCitationsGo fuel rest with
        | nil =>
          rw [hgo] at h
          simp only [pushText] at h
          injection h with h1 _
          injection h1 with h2
          subst h2
          exact ⟨rest, rfl⟩
        | cons p ps' =>
          rw [hgo] at h
          cases p with
          | textPart t' =>
            simp only [pushText] at h
            injection h with h1 _
            injection h1 with h2
            subst h2
            have hpre : t' <+: rest := by
              refine ih rest t' ps' ?_ hgo
              simpa using Nat.succ_le_succ_iff.mp hlen
            obtain ⟨u, hu⟩ := hpre
            exact ⟨u, by rw [List.cons_append, hu]⟩
          | citationPart d =>
            simp only [pushText] at h
            injection h with h1 _
            injection h1 with h2
            subst h2
            exact ⟨rest, rfl⟩

theorem pushText_join (c : Char) (ps : List ContentPart) :
    ((pushText c ps).map partChars).join = c :: (ps.map partChars).join := by
  cases ps with
  | nil => rfl
  | cons p ps' => cases p <;> rfl

/-- Soundness of the scan: the parts concatenate back to the input,
text parts contain no citation marker, and citation parts are nonempty
digit runs. -/
theorem splitCitationsGo_parts :
    ∀ (fuel : Nat) (l : List Char), l.length ≤ fuel →
    (((splitCitationsGo fuel l).map partChars).join = l)
    ∧ (∀ p ∈ splitCitationsGo fuel l,
        (∀ cs, p = ContentPart.textPart cs → hasCitation cs = false)
        ∧ (∀ ds, p = ContentPart.citationPart ds → ds ≠ [] ∧ ds.all Char.isDigit)) := by
  intro fuel
  induction fuel with
  | zero =>
    intro l hlen
    have : l = [] := List.length_eq_zero.mp (Nat.le_zero.mp hlen)
    subst this
    exact ⟨rfl, by intro p hp; cases hp⟩
  | succ fuel ih =>
    intro l hlen
    cases l with
    | nil => exact ⟨rfl, by intro p hp; cases hp⟩
    | cons c rest =>
      cases hm : matchCitation (c :: rest) with
      | some p =>
        obtain ⟨ds, tail⟩ := p
        obtain ⟨hl, hds, hall⟩ := matchCitation_eq_some hm
        have hlen' : tail.length ≤ fuel := by
          have h2 := matchCitation_some_length hm
          simp only [List.length_cons] at h2 hlen
          omega
        obtain ⟨ihjoin, ihmem⟩ := ih tail hlen'
        rw [show splitCitationsGo (fuel + 1) (c :: rest)
            = ContentPart.citationPart ds :: splitCitationsGo fuel tail by
          simp [splitCitationsGo, hm]]
        constructor
        · simp only [List.map_cons, List.join_cons, ihjoin, partChars]
          rw [hl]
          simp
        · intro q hq
          rcases List.mem_cons.mp hq with rfl | hq'
          · refine ⟨(fun cs hcs => by cases hcs), fun ds' hds' => ?_⟩
            injection hds' with h2
            subst h2
            exact ⟨hds, hall⟩
          · exact ihmem q hq'
      | none =>
        have hlen' : rest.length ≤ fuel := by
          simpa using Nat.succ_le_succ_iff.mp hlen
        obtain ⟨ihjoin, ihmem⟩ := ih rest hlen'
        rw [show splitCitationsGo (fuel + 1) (c :: rest)
            = pushText c (splitCitationsGo fuel rest) by
          simp [splitCitationsGo, hm]]
        constructor
        · rw [pushText_join, ihjoin]
        · intro q hq
          cases hgo : splitCitationsGo fuel rest with
          | nil =>
            rw [hgo] at hq
            simp only [pushText, List.mem_singleton] at hq
            subst hq
            refine ⟨fun cs hcs => ?_, fun ds hds => by cases hds⟩
            injection hcs with h2
            subst h2
            have hmc : matchCitation (c :: ([] : List Char)) = none :=
              matchCitation_none_mono (t := []) (u := rest) hm
            simp [hasCitation, hmc]
          | cons p ps' =>
            rw [hgo] at hq
            cases p with
            | textPart t' =>
              simp only [pushText, List.mem_cons] at hq
              rcases hq with rfl | hq'
              · refine ⟨fun cs hcs => ?_, fun ds hds => by cases hds⟩
                injection hcs with h2
                subst h2
                have hpre : t' <+: rest :=
                  splitCitationsGo_leading_text fuel rest t' ps' hlen' hgo
                obtain ⟨u, hu⟩ := hpre
                have hmc : matchCitation (c :: t') = none :=
                  matchCitation_none_mono (t := t') (u := u) (hu ▸ hm)
                have htc : hasCitation t' = false :=
                  (ihmem (ContentPart.textPart t') (hgo ▸ List.mem_cons_self ..)).1 t' rfl
                simp [hasCitation, hmc, htc]
              · exact ihmem q (hgo ▸ List.mem_cons_of_mem _ hq')
            | citationPart d =>
              simp only [pushText, List.mem_cons] at hq
              rcases hq with rfl | hq'
              · refine ⟨fun cs hcs => ?_, fun ds hds => by cases hds⟩
                injection hcs with h2
                subst h2
                have hmc : matchCitation (c :: ([] : List Char)) = none :=
                  matchCitation_none_mono (t := []) (u := rest) hm
                simp [hasCitation, hmc]
              · exact ihmem q (hgo ▸ List.mem_cons.mpr hq')

/-- C5: `renderContent` decomposes the message content exactly —
concatenating the rendered nodes' covered characters restores the
content verbatim (so text outside markers is unchanged), every text
span is marker-free (so every maximal `[n]` becomes a badge), and every
badge carries a nonempty digit run `ds`, is numbered
`parseInt(ds) = n`, and is linked to the first source whose `id`
equals `n` (`none` when there is no such source). -/
theorem citation_rendering (content : String) (sources : List Source) :
    ((renderContent content sources).map nodeChars).join = content.data
    ∧ (∀ node ∈ renderContent content sources,
        (∀ cs, node = RenderedNode.textSpan cs → hasCitation cs = false)
        ∧ (∀ ds n src, node = RenderedNode.badge ds n src →
            ds ≠ [] ∧ ds.all Char.isDigit ∧ n = ((digitsToNat 10 ds : Nat) : Int)
            ∧ src = sources.find? (fun s => s.id = n))) := by
  obtain ⟨hjoin, hmem⟩ :=
    splitCitationsGo_parts content.data.length content.data (Nat.le_refl _)
  constructor
  · rw [show (renderContent content sources).map nodeChars
        = (splitCitations content.data).map partChars by
      simp only [renderContent, List.map_map]
      congr 1
      funext p
      cases p <;> rfl]
    exact hjoin
  · intro node hnode
    obtain ⟨p, hp, rfl⟩ := List.mem_map.mp hnode
    have hparts := hmem p hp
    cases p with
    | textPart cs =>
      refine ⟨fun cs' hcs' => ?_, fun ds n src hb => by simp [renderPart] at hb⟩
      simp only [renderPart] at hcs'
      injection hcs' with h2
      subst h2
      exact hparts.1 cs rfl
    | citationPart ds =>
      refine ⟨fun cs' hcs' => by simp [renderPart] at hcs', fun ds' n src hb => ?_⟩
      simp only [renderPart] at hb
      injection hb with h1 h2 h3
      subst h1
      subst h2
      subst h3
      obtain ⟨hne, hall⟩ := hparts.2 ds rfl
      exact ⟨hne, hall, rfl, rfl⟩

/-- C5 witness: for content `"See [2]!"` against a single source with
id 2, the rendered nodes restore the content, the text span `"See "`
is marker-free, and the `[2]` marker renders as badge 2 linked to that
source. -/
theorem citation_rendering_witness :
    ((renderContent "See [2]!"
        [{ id := 2, pdf_id := "doc", filename := "f.pdf",
           page := PageField.num 3, text := "ex" }]).map nodeChars).join
      = ("See [2]!").data
    ∧ hasCitation ("See ").data = false
    ∧ RenderedNode.badge ['2'] 2
        (some { id := 2, pdf_id := "doc", filename := "f.pdf",
                page := PageField.num 3, text := "ex" })
      ∈ renderContent "See [2]!"
        [{ id := 2, pdf_id := "doc", filename := "f.pdf",
           page := PageField.num 3, text := "ex" }] := by
  have h := citation_rendering "See [2]!"
    [{ id := 2, pdf_id := "doc", filename := "f.pdf",
       page := PageField.num 3, text := "ex" }]
  refine ⟨h.1, ?_, by decide⟩
  exact (h.2 (RenderedNode.textSpan ("See ").data) (by decide)).1 _ rfl

/-- C2 (refuted, code bug): two partitions of the same SSE byte stream
into network chunks yield different final message states.  Delivered
whole, the `text` event is decoded and the assistant content is
`"hi"`; with a chunk boundary inside the line, both halves are
discarded (the first fails `JSON.parse`, the second lacks the `data: `
prefix) and the content stays `""` — the reader's per-chunk newline
split makes the decoded result depend on chunk boundaries, contrary to
the protocol contract its own comment cites. -/
theorem chunk_boundary_dependence :
    sseChunksSplit.flatten = sseChunksWhole.flatten
    ∧ contentOpt (runStreamChunks 0 "q" sseChunksWhole) (assistantMessageId 0) = some "hi"
    ∧ contentOpt (runStreamChunks 0 "q" sseChunksSplit) (assistantMessageId 0) = some ""
    ∧ contentOpt (runStreamChunks 0 "q" sseChunksWhole) (assistantMessageId 0)
        ≠ contentOpt (runStreamChunks 0 "q" sseChunksSplit) (assistantMessageId 0) := by
  refine ⟨by decide, by decide, by decide, by decide⟩

end AIChat
